import Mathlib

/-!
Verification development for the storage layer of a Svelte web-extension
template.  The embedded code comes from:

* `src/lib/storage/utils.ts` — the template sanitizer (`cleanObject` with its
  inner `cleanArray` helper), and the `StateManager` class with its private
  `#debounce` combinator;
* `src/lib/storage/state.svelte.ts` — the storage binding (module init IIFE,
  `initialiseStorageAutoSave`).

JavaScript values are modelled by the inductive `JVal`; objects are
association lists of string keys in insertion order (real JS objects have
unique keys, which well-formedness tracks where a proof needs it).  The
debounce closure state is modelled explicitly (`DState`), with `setTimeout`
handles replaced by absolute fire times, and the single-threaded event loop
replaced by a deterministic step function over a list of timestamped calls.
-/

set_option maxHeartbeats 1000000

/-- A JavaScript value, as far as the storage layer can observe it. -/
inductive JVal where
  | vNull
  | vUndef
  | vBool (b : Bool)
  | vNum (n : Int)
  | vStr (s : String)
  | vArr (elems : List JVal)
  | vObj (fields : List (String × JVal))
deriving Repr

/-- The possible results of the JavaScript `typeof` operator on a `JVal`. -/
inductive JType where
  | undefinedT
  | objectT
  | booleanT
  | numberT
  | stringT
deriving DecidableEq, Repr

/-- JavaScript `typeof`.  Note `typeof null === 'object'` and arrays are
`'object'` as well. -/
def typeof : JVal → JType
  | .vUndef => .undefinedT
  | .vNull => .objectT
  | .vBool _ => .booleanT
  | .vNum _ => .numberT
  | .vStr _ => .stringT
  | .vArr _ => .objectT
  | .vObj _ => .objectT

/-- Property read `object[key]`: the first binding for `key`, or `undefined`
when the key is absent. -/
def jlookup : List (String × JVal) → String → JVal
  | [], _ => .vUndef
  | (k', v) :: rest, k => if k' = k then v else jlookup rest k

mutual

/-- `cleanObject(object, template)` from `src/lib/storage/utils.ts` (lines
25–94): iterate the template entries; per key dispatch on the template
value's shape (nested object / array / primitive).  The per-key dispatch is
`cleanValue`. -/
def cleanObject : List (String × JVal) → List (String × JVal) → List (String × JVal)
  | _, [] => []
  | object, (key, def_) :: rest =>
    (key, cleanValue (jlookup object key) def_) :: cleanObject object rest
termination_by _o t => (sizeOf t, 0)
decreasing_by all_goals (simp_wf; omega)

/-- The body of the `for (const [key, def] of Object.entries(template))` loop
in `cleanObject`: the three branches on `typeof def` / `Array.isArray(def)`.
`JVal.vNull` falls into the primitive branch because of the `def !== null`
guard, exactly as in the source. -/
def cleanValue (val : JVal) : JVal → JVal
  | .vObj tf =>
    match val with
    | .vObj vf => .vObj (cleanObject vf tf)
    | _ => .vObj tf
  | .vArr tarr =>
    match val with
    | .vArr (v :: vs) => .vArr (cleanArray (v :: vs) tarr)
    | _ => .vArr tarr
  | d => if typeof val = typeof d then val else d
termination_by d => (sizeOf d, 0)
decreasing_by all_goals (simp_wf; omega)

/-- `cleanArray(userArr, templateArr)` (utils.ts lines 38–63).  An empty
template array yields `[]`; an object exemplar maps every element through
`cleanArrayObj`; otherwise the whole user array is accepted iff every element
has the exemplar's `typeof`, else the template array is returned. -/
def cleanArray (userArr : List JVal) (tarr : List JVal) : List JVal :=
  match tarr with
  | [] => []
  | tItem :: trest =>
    match tItem with
    | .vObj tf => cleanArrayObj userArr tf
    | _ =>
      if userArr.all (fun item => typeof item = typeof tItem) then userArr
      else tItem :: trest
termination_by (sizeOf tarr, 0)
decreasing_by all_goals (simp_wf; omega)

/-- The `userArr.map(item => ...)` closure inside `cleanArray`'s object
branch: object elements are cleaned recursively, anything else is replaced
wholesale by the exemplar. -/
def cleanArrayObj : List JVal → List (String × JVal) → List JVal
  | [], _ => []
  | item :: rest, tf =>
    (match item with
     | .vObj f => JVal.vObj (cleanObject f tf)
     | _ => JVal.vObj tf) :: cleanArrayObj rest tf
termination_by u tf => (sizeOf tf, u.length + 1)
decreasing_by all_goals (simp_wf; omega)

end

mutual

/-- Well-formedness of a template value, per the spec's data model: object
keys are unique and array leaves hold at most one exemplar element. -/
def twf : JVal → Bool
  | .vObj fs => twfFields fs
  | .vArr [] => true
  | .vArr [e] => twf e
  | .vArr (_ :: _ :: _) => false
  | _ => true
termination_by d => sizeOf d
decreasing_by all_goals (simp_wf; try omega)

/-- Well-formedness of a template's field list. -/
def twfFields : List (String × JVal) → Bool
  | [] => true
  | (k, d) :: rest => !(rest.any (fun p => p.1 = k)) && twf d && twfFields rest
termination_by t => sizeOf t
decreasing_by all_goals (simp_wf; try omega)

end

theorem twfFields_cons {k : String} {d : JVal} {rest : List (String × JVal)}
    (h : twfFields ((k, d) :: rest) = true) :
    rest.any (fun p => p.1 = k) = false ∧ twf d = true ∧ twfFields rest = true := by
  have h' := h
  rw [twfFields] at h'
  simp only [Bool.and_eq_true, Bool.not_eq_true'] at h'
  exact ⟨h'.1.1, h'.1.2, h'.2⟩

theorem jlookup_self {t : List (String × JVal)} {k : String} {d : JVal}
    (hnd : twfFields t = true) (hm : (k, d) ∈ t) : jlookup t k = d := by
  induction t with
  | nil => cases hm
  | cons hd rest ih =>
    obtain ⟨k', d'⟩ := hd
    obtain ⟨hany, _, hrest⟩ := twfFields_cons hnd
    rcases List.mem_cons.mp hm with heq | hm'
    · cases heq
      simp [jlookup]
    · have hk : k ≠ k' := by
        intro hkk
        have : rest.any (fun p => p.1 = k') = true :=
          List.any_eq_true.mpr ⟨(k, d), hm', by simp [hkk]⟩
        rw [hany] at this
        cases this
      rw [jlookup, if_neg (fun hh => hk hh.symm)]
      exact ih hrest hm'

theorem jlookup_cleanObject {t : List (String × JVal)} (o : List (String × JVal))
    {k : String} {d : JVal} (hnd : twfFields t = true) (hm : (k, d) ∈ t) :
    jlookup (cleanObject o t) k = cleanValue (jlookup o k) d := by
  induction t with
  | nil => cases hm
  | cons hd rest ih =>
    obtain ⟨k', d'⟩ := hd
    obtain ⟨hany, _, hrest⟩ := twfFields_cons hnd
    rw [cleanObject]
    rcases List.mem_cons.mp hm with heq | hm'
    · cases heq
      simp [jlookup]
    · have hk : k ≠ k' := by
        intro hkk
        have : rest.any (fun p => p.1 = k') = true :=
          List.any_eq_true.mpr ⟨(k, d), hm', by simp [hkk]⟩
        rw [hany] at this
        cases this
      rw [jlookup, if_neg (fun hh => hk hh.symm)]
      exact ih hrest hm'

theorem cleanObject_congr {t o1 o2 : List (String × JVal)}
    (h : ∀ k d, (k, d) ∈ t → cleanValue (jlookup o1 k) d = cleanValue (jlookup o2 k) d) :
    cleanObject o1 t = cleanObject o2 t := by
  induction t with
  | nil => rw [cleanObject, cleanObject]
  | cons hd rest ih =>
    obtain ⟨k, d⟩ := hd
    rw [cleanObject, cleanObject]
    rw [h k d (List.mem_cons_self _ _), ih (fun k' d' hm => h k' d' (List.mem_cons_of_mem _ hm))]

theorem cleanObject_self {t0 t : List (String × JVal)}
    (h : ∀ k d, (k, d) ∈ t → jlookup t0 k = d ∧ cleanValue d d = d) :
    cleanObject t0 t = t := by
  induction t with
  | nil => rw [cleanObject]
  | cons hd rest ih =>
    obtain ⟨k, d⟩ := hd
    rw [cleanObject]
    have hh := h k d (List.mem_cons_self _ _)
    rw [hh.1, hh.2, ih (fun k' d' hm => h k' d' (List.mem_cons_of_mem _ hm))]

theorem cleanArrayObj_idem {tf : List (String × JVal)}
    (h1 : ∀ f, cleanObject (cleanObject f tf) tf = cleanObject f tf)
    (h2 : cleanObject tf tf = tf) (u : List JVal) :
    cleanArrayObj (cleanArrayObj u tf) tf = cleanArrayObj u tf := by
  induction u with
  | nil => simp [cleanArrayObj]
  | cons item rest ih =>
    cases item <;> simp [cleanArrayObj, ih, h1, h2]

theorem sizeOf_mem_fields {fs : List (String × JVal)} {k : String} {d : JVal}
    (h : (k, d) ∈ fs) : sizeOf d < sizeOf fs := by
  have h1 : sizeOf (k, d) < sizeOf fs := List.sizeOf_lt_of_mem h
  simp only [Prod.mk.sizeOf_spec] at h1
  omega

theorem twf_of_mem {t : List (String × JVal)} {k : String} {d : JVal}
    (hnd : twfFields t = true) (hm : (k, d) ∈ t) : twf d = true := by
  induction t with
  | nil => cases hm
  | cons hd rest ih =>
    obtain ⟨k', d'⟩ := hd
    obtain ⟨_, hd', hrest⟩ := twfFields_cons hnd
    rcases List.mem_cons.mp hm with heq | hm'
    · cases heq; exact hd'
    · exact ih hrest hm'

theorem cleanValue_prim (v : JVal) (d : JVal) (h1 : ∀ tf, d ≠ JVal.vObj tf)
    (h2 : ∀ l, d ≠ JVal.vArr l) :
    cleanValue v d = if typeof v = typeof d then v else d := by
  cases d
  case vObj tf => exact absurd rfl (h1 tf)
  case vArr l => exact absurd rfl (h2 l)
  all_goals simp [cleanValue]

theorem cleanValue_prim_idem (d : JVal) (h1 : ∀ tf, d ≠ JVal.vObj tf)
    (h2 : ∀ l, d ≠ JVal.vArr l) :
    cleanValue d d = d ∧ ∀ v, cleanValue (cleanValue v d) d = cleanValue v d := by
  have hp : ∀ v, cleanValue v d = if typeof v = typeof d then v else d :=
    fun v => cleanValue_prim v d h1 h2
  constructor
  · rw [hp]; simp
  · intro v
    by_cases h : typeof v = typeof d <;> simp [hp, h]

theorem cleanArray_prim_branch {e : JVal} (he : ∀ tf, e ≠ JVal.vObj tf) (u : List JVal) :
    cleanArray u [e] = if u.all (fun item => typeof item = typeof e) then u else [e] := by
  cases e
  case vObj tf => exact absurd rfl (he tf)
  all_goals simp [cleanArray]

theorem cleanValue_arr_fallback (tarr : List JVal) (v : JVal)
    (h : ∀ x xs, v ≠ JVal.vArr (x :: xs)) :
    cleanValue v (JVal.vArr tarr) = JVal.vArr tarr := by
  cases v with
  | vArr lv =>
    cases lv with
    | nil => simp [cleanValue]
    | cons x xs => exact absurd rfl (h x xs)
  | vNull => simp [cleanValue]
  | vUndef => simp [cleanValue]
  | vBool b => simp [cleanValue]
  | vNum m => simp [cleanValue]
  | vStr s => simp [cleanValue]
  | vObj f => simp [cleanValue]

theorem cleanValue_arr_prim_idem {e : JVal} (he : ∀ tf, e ≠ JVal.vObj tf) :
    cleanValue (JVal.vArr [e]) (JVal.vArr [e]) = JVal.vArr [e] ∧
    ∀ v, cleanValue (cleanValue v (JVal.vArr [e])) (JVal.vArr [e])
           = cleanValue v (JVal.vArr [e]) := by
  have harr := cleanArray_prim_branch he
  have hself : cleanValue (JVal.vArr [e]) (JVal.vArr [e]) = JVal.vArr [e] := by
    simp [cleanValue, harr]
  refine ⟨hself, fun v => ?_⟩
  cases v with
  | vArr lv =>
    cases lv with
    | nil =>
      have h0 : cleanValue (JVal.vArr ([] : List JVal)) (JVal.vArr [e]) = JVal.vArr [e] := by
        simp [cleanValue]
      rw [h0, hself]
    | cons x xs =>
      have h1 : cleanValue (JVal.vArr (x :: xs)) (JVal.vArr [e])
          = JVal.vArr (cleanArray (x :: xs) [e]) := by simp [cleanValue]
      rw [h1, harr]
      split
      · next hc => rw [h1, harr, if_pos hc]
      · exact hself
  | vNull => simp [cleanValue, harr]
  | vUndef => simp [cleanValue, harr]
  | vBool b => simp [cleanValue, harr]
  | vNum m => simp [cleanValue, harr]
  | vStr s => simp [cleanValue, harr]
  | vObj f => simp [cleanValue, harr]

theorem cleanValue_self_idem :
    ∀ (n : Nat) (d : JVal), sizeOf d < n → twf d = true →
      cleanValue d d = d ∧ ∀ v, cleanValue (cleanValue v d) d = cleanValue v d := by
  intro n
  induction n with
  | zero => intro d h; omega
  | succ n ih =>
    intro d hsize htwf
    cases d with
    | vNull => exact cleanValue_prim_idem _ (fun _ h => by cases h) (fun _ h => by cases h)
    | vUndef => exact cleanValue_prim_idem _ (fun _ h => by cases h) (fun _ h => by cases h)
    | vBool b => exact cleanValue_prim_idem _ (fun _ h => by cases h) (fun _ h => by cases h)
    | vNum m => exact cleanValue_prim_idem _ (fun _ h => by cases h) (fun _ h => by cases h)
    | vStr s => exact cleanValue_prim_idem _ (fun _ h => by cases h) (fun _ h => by cases h)
    | vObj fs =>
      have hF : twfFields fs = true := by rw [twf] at htwf; exact htwf
      have hsz : sizeOf fs < sizeOf (JVal.vObj fs) := by simp
      have hmem : ∀ k d', (k, d') ∈ fs →
          cleanValue d' d' = d' ∧ ∀ v, cleanValue (cleanValue v d') d' = cleanValue v d' := by
        intro k d' hm
        have := sizeOf_mem_fields hm
        exact ih d' (by omega) (twf_of_mem hF hm)
      have hself : cleanObject fs fs = fs :=
        cleanObject_self (fun k d' hm => ⟨jlookup_self hF hm, (hmem k d' hm).1⟩)
      have hidem : ∀ o, cleanObject (cleanObject o fs) fs = cleanObject o fs := by
        intro o
        apply cleanObject_congr
        intro k d' hm
        rw [jlookup_cleanObject o hF hm]
        exact (hmem k d' hm).2 (jlookup o k)
      refine ⟨by simp [cleanValue, hself], fun v => ?_⟩
      cases v <;> simp [cleanValue, hself, hidem]
    | vArr l =>
      cases l with
      | nil =>
        refine ⟨by simp [cleanValue], fun v => ?_⟩
        cases v with
        | vArr lv => cases lv <;> simp [cleanValue, cleanArray]
        | vNull => simp [cleanValue]
        | vUndef => simp [cleanValue]
        | vBool b => simp [cleanValue]
        | vNum m => simp [cleanValue]
        | vStr s => simp [cleanValue]
        | vObj f => simp [cleanValue]
      | cons e rest =>
        cases rest with
        | cons e2 rest2 => rw [twf] at htwf; cases htwf
        | nil =>
          have htwfe : twf e = true := by rw [twf] at htwf; exact htwf
          have hsze : sizeOf e < n := by
            have : sizeOf (JVal.vArr [e]) = 3 + sizeOf e := by simp; omega
            omega
          cases e with
          | vObj tf =>
            obtain ⟨he_self, he_idem⟩ := ih (JVal.vObj tf) hsze htwfe
            have hselftf : cleanObject tf tf = tf := by
              have h' := he_self
              simp only [cleanValue] at h'
              exact (JVal.vObj.injEq _ _).mp h'
            have hidemtf : ∀ f, cleanObject (cleanObject f tf) tf = cleanObject f tf := by
              intro f
              have h' := he_idem (JVal.vObj f)
              simp only [cleanValue] at h'
              exact (JVal.vObj.injEq _ _).mp h'
            have hself : cleanValue (JVal.vArr [JVal.vObj tf]) (JVal.vArr [JVal.vObj tf])
                = JVal.vArr [JVal.vObj tf] := by
              simp [cleanValue, cleanArray, cleanArrayObj, hselftf]
            refine ⟨hself, fun v => ?_⟩
            by_cases hv : ∃ x xs, v = JVal.vArr (x :: xs)
            · obtain ⟨x, xs, rfl⟩ := hv
              have h1 : cleanValue (JVal.vArr (x :: xs)) (JVal.vArr [JVal.vObj tf])
                  = JVal.vArr (cleanArrayObj (x :: xs) tf) := by
                simp [cleanValue, cleanArray]
              rw [h1]
              obtain ⟨r0, rs, hr⟩ :
                  ∃ r0 rs, cleanArrayObj (x :: xs) tf = r0 :: rs := by
                cases x <;> simp [cleanArrayObj]
              rw [hr]
              have h2 : cleanValue (JVal.vArr (r0 :: rs)) (JVal.vArr [JVal.vObj tf])
                  = JVal.vArr (cleanArrayObj (r0 :: rs) tf) := by
                simp [cleanValue, cleanArray]
              rw [h2, ← hr, cleanArrayObj_idem hidemtf hselftf]
            · have h0 : ∀ x xs, v ≠ JVal.vArr (x :: xs) := by
                intro x xs hx
                exact hv ⟨x, xs, hx⟩
              rw [cleanValue_arr_fallback _ _ h0, hself]
          | vNull => exact cleanValue_arr_prim_idem (fun _ h => by cases h)
          | vUndef => exact cleanValue_arr_prim_idem (fun _ h => by cases h)
          | vBool b => exact cleanValue_arr_prim_idem (fun _ h => by cases h)
          | vNum m => exact cleanValue_arr_prim_idem (fun _ h => by cases h)
          | vStr s => exact cleanValue_arr_prim_idem (fun _ h => by cases h)
          | vArr inner => exact cleanValue_arr_prim_idem (fun _ h => by cases h)


/-- C4: the sanitizer is idempotent — for every input object `x` and every
well-formed template `t` (unique keys, array leaves with at most one
exemplar), cleaning a cleaned object against the same template is the
identity: `cleanObject (cleanObject x t) t = cleanObject x t`. -/
theorem cleanObject_idempotent (x t : List (String × JVal)) (h : twfFields t = true) :
    cleanObject (cleanObject x t) t = cleanObject x t := by
  apply cleanObject_congr
  intro k d hm
  rw [jlookup_cleanObject x h hm]
  exact (cleanValue_self_idem (sizeOf d + 1) d (by omega) (twf_of_mem h hm)).2 (jlookup x k)

/-- Witness for C4 at a concrete template and input. -/
theorem cleanObject_idempotent_witness :
    twfFields [("a", JVal.vNum 1), ("b", JVal.vObj [("c", JVal.vBool true)]),
               ("tags", JVal.vArr [JVal.vStr ""])] = true ∧
    cleanObject
        (cleanObject [("a", JVal.vStr "x"), ("zz", JVal.vNum 3),
                      ("b", JVal.vObj [("c", JVal.vNum 1)])]
          [("a", JVal.vNum 1), ("b", JVal.vObj [("c", JVal.vBool true)]),
           ("tags", JVal.vArr [JVal.vStr ""])])
        [("a", JVal.vNum 1), ("b", JVal.vObj [("c", JVal.vBool true)]),
         ("tags", JVal.vArr [JVal.vStr ""])]
      = cleanObject [("a", JVal.vStr "x"), ("zz", JVal.vNum 3),
                     ("b", JVal.vObj [("c", JVal.vNum 1)])]
          [("a", JVal.vNum 1), ("b", JVal.vObj [("c", JVal.vBool true)]),
           ("tags", JVal.vArr [JVal.vStr ""])] :=
  ⟨by simp [twfFields, twf],
   cleanObject_idempotent _ _ (by simp [twfFields, twf])⟩

/-- C7: for a template key holding a non-empty array with a primitive
exemplar `ex`, a non-empty input array is accepted as-is iff every element
has `typeof ex`, otherwise (or for a missing/empty/non-array input) the
template array is used; concretely `{tags: [1,2]}` against `{tags: [""]}`
falls back to `{tags: [""]}` while `{tags: ["x","y"]}` is kept. -/
theorem cleanArray_primitive_exemplar :
    (∀ (ex : JVal), (∀ tf, ex ≠ JVal.vObj tf) → ∀ (x : JVal) (xs : List JVal),
       cleanValue (JVal.vArr (x :: xs)) (JVal.vArr [ex])
         = if (x :: xs).all (fun item => typeof item = typeof ex) then JVal.vArr (x :: xs)
           else JVal.vArr [ex]) ∧
    (∀ (ex : JVal) (v : JVal), (∀ x xs, v ≠ JVal.vArr (x :: xs)) →
       cleanValue v (JVal.vArr [ex]) = JVal.vArr [ex]) ∧
    cleanObject [("tags", JVal.vArr [JVal.vNum 1, JVal.vNum 2])]
        [("tags", JVal.vArr [JVal.vStr ""])]
      = [("tags", JVal.vArr [JVal.vStr ""])] ∧
    cleanObject [("tags", JVal.vArr [JVal.vStr "x", JVal.vStr "y"])]
        [("tags", JVal.vArr [JVal.vStr ""])]
      = [("tags", JVal.vArr [JVal.vStr "x", JVal.vStr "y"])] := by
  refine ⟨?_, ?_, ?_, ?_⟩
  · intro ex hex x xs
    have h1 : cleanValue (JVal.vArr (x :: xs)) (JVal.vArr [ex])
        = JVal.vArr (cleanArray (x :: xs) [ex]) := by simp [cleanValue]
    rw [h1, cleanArray_prim_branch hex]
    split <;> rfl
  · intro ex v hv
    exact cleanValue_arr_fallback _ _ hv
  · simp [cleanObject, cleanValue, cleanArray, cleanArrayObj, jlookup, typeof]
  · simp [cleanObject, cleanValue, cleanArray, cleanArrayObj, jlookup, typeof]

/-- Witness for C7 at a concrete exemplar, mistyped array and non-array input. -/
theorem cleanArray_primitive_exemplar_witness :
    cleanValue (JVal.vArr [JVal.vNum 1, JVal.vNum 2]) (JVal.vArr [JVal.vStr ""])
      = JVal.vArr [JVal.vStr ""] ∧
    cleanValue JVal.vNull (JVal.vArr [JVal.vStr ""]) = JVal.vArr [JVal.vStr ""] := by
  constructor
  · have h := cleanArray_primitive_exemplar.1 (JVal.vStr "") (fun _ h => by cases h)
      (JVal.vNum 1) [JVal.vNum 2]
    rw [h]
    simp [typeof]
  · exact cleanArray_primitive_exemplar.2.1 (JVal.vStr "") JVal.vNull
      (fun _ _ h => by cases h)

/-- Options taken by `#debounce` (utils.ts lines 279–286): `immediate`
defaults to false, `delay` to 1000, `maxWait` stays `undefined` when
omitted. -/
structure DConfig where
  immediate : Bool
  delay : Nat
  maxWait : Option Nat
deriving Repr, DecidableEq

/-- The closure state of one debounced function (utils.ts lines 287–291),
with `setTimeout` handles replaced by the absolute times the armed timers
are due (`none` = the handle is null), plus a log `execs` of the `fn`
executions performed so far (time, arguments). -/
structure DState (A : Type) where
  timeout : Option Nat
  maxTimeout : Option Nat
  lastInvokeTime : Nat
  firstCallTime : Nat
  pendingArgs : Option A
  execs : List (Nat × A)
deriving Repr, DecidableEq

/-- The closure state right after `#debounce` returns the wrapper. -/
def initDState {A : Type} : DState A :=
  { timeout := none, maxTimeout := none, lastInvokeTime := 0,
    firstCallTime := 0, pendingArgs := none, execs := [] }

/-- `invoke` (utils.ts lines 293–299): run `fn` on the pending arguments if
any, record the invocation time, clear `firstCallTime` and `pendingArgs`. -/
def invoke {A : Type} (now : Nat) (s : DState A) : DState A :=
  match s.pendingArgs with
  | none => s
  | some args =>
    { s with execs := s.execs ++ [(now, args)], lastInvokeTime := now,
             firstCallTime := 0, pendingArgs := none }

/-- `startMaxWaitTimer` (utils.ts lines 301–316): no-op if already armed or
`maxWait` is undefined; otherwise arm a timer for
`maxWait - (now - firstCallTime)` ms from now.  `setTimeout` clamps a
negative delay to 0, hence `Int.toNat`. -/
def startMaxWaitTimer {A : Type} (cfg : DConfig) (now : Nat) (s : DState A) : DState A :=
  if s.maxTimeout.isSome then s
  else
    match cfg.maxWait with
    | none => s
    | some mw =>
      let timeLeft : Int := (mw : Int) - ((now : Int) - (s.firstCallTime : Int))
      { s with maxTimeout := some (now + timeLeft.toNat) }

/-- The trailing-timer callback (utils.ts lines 334–343), fired at its due
time `now`: invoke unless `immediate`, then clear the max-wait timer and
null the trailing handle. -/
def trailingFire {A : Type} (cfg : DConfig) (now : Nat) (s : DState A) : DState A :=
  let s1 := if cfg.immediate then s else invoke now s
  { s1 with maxTimeout := none, timeout := none }

/-- The max-wait-timer callback (utils.ts lines 308–315), fired at its due
time `now`: cancel the trailing timer, invoke, null the max-wait handle. -/
def maxFire {A : Type} (now : Nat) (s : DState A) : DState A :=
  let s1 := invoke now { s with timeout := none }
  { s1 with maxTimeout := none }

/-- The wrapper returned by `#debounce` (utils.ts lines 318–346), called at
time `now` with arguments `args`: overwrite `pendingArgs`, set
`firstCallTime` on the first call of a burst, leading-edge invoke when
`immediate` and nothing was ever invoked, re-arm the trailing timer for
`now + delay` (cancelling the previous one), then `startMaxWaitTimer`. -/
def debounceCall {A : Type} (cfg : DConfig) (now : Nat) (args : A) (s : DState A) : DState A :=
  let s1 := { s with pendingArgs := some args }
  let s2 := if s1.firstCallTime = 0 then { s1 with firstCallTime := now } else s1
  let s3 := if cfg.immediate && s2.lastInvokeTime == 0 then invoke now s2 else s2
  let s4 := { s3 with timeout := some (now + cfg.delay) }
  startMaxWaitTimer cfg now s4

/-- Which armed timer is due next: the earlier fire time wins; on a tie the
max-wait timer fires first (it was scheduled earlier in the burst, and
same-deadline callbacks run in scheduling order). -/
def dueTimer {A : Type} (s : DState A) : Option (Bool × Nat) :=
  match s.timeout, s.maxTimeout with
  | none, none => none
  | some t, none => some (false, t)
  | none, some m => some (true, m)
  | some t, some m => if m ≤ t then some (true, m) else some (false, t)

/-- Run the next due timer callback (if any) at its own fire time.  Both
callbacks null both handles, so at most one firing happens per quiet
period. -/
def fireOne {A : Type} (cfg : DConfig) (s : DState A) : DState A :=
  match dueTimer s with
  | none => s
  | some (false, t) => trailingFire cfg t s
  | some (true, m) => maxFire m s

/-- Fire the timer that is due strictly before time `now`, if any (the event
loop runs timer callbacks scheduled before the next wrapper call). -/
def fireDue {A : Type} (cfg : DConfig) (now : Nat) (s : DState A) : DState A :=
  match dueTimer s with
  | none => s
  | some (_, ft) => if ft < now then fireOne cfg s else s

/-- Process a chronological list of wrapper calls `(time, args)`,
interleaving due timer callbacks. -/
def debounceSteps {A : Type} (cfg : DConfig) : List (Nat × A) → DState A → DState A
  | [], s => s
  | (t, a) :: rest, s => debounceSteps cfg rest (debounceCall cfg t a (fireDue cfg t s))

/-- Full run of a debounced function: start from the fresh closure, process
the calls, then let the event loop go quiet (the last due timer fires). -/
def debounceRun {A : Type} (cfg : DConfig) (calls : List (Nat × A)) : DState A :=
  fireOne cfg (debounceSteps cfg calls initDState)

theorem debounceCall_trailing {A : Type} (delay t : Nat) (a : A) (s : DState A)
    (hmax : s.maxTimeout = none) :
    debounceCall ⟨false, delay, none⟩ t a s
      = { timeout := some (t + delay), maxTimeout := none,
          lastInvokeTime := s.lastInvokeTime,
          firstCallTime := if s.firstCallTime = 0 then t else s.firstCallTime,
          pendingArgs := some a, execs := s.execs } := by
  simp only [debounceCall, startMaxWaitTimer]
  split <;> simp_all

theorem fireDue_not_due {A : Type} (cfg : DConfig) (t ft : Nat) (s : DState A)
    (ht : s.timeout = some ft) (hmax : s.maxTimeout = none) (hlt : ¬ ft < t) :
    fireDue cfg t s = s := by
  unfold fireDue dueTimer
  rw [ht, hmax]
  simp [hlt]

theorem fireOne_trailing_noMax {A : Type} (delay ft : Nat) (s : DState A) (aprev : A)
    (hT : s.timeout = some ft) (hM : s.maxTimeout = none)
    (hP : s.pendingArgs = some aprev) :
    (fireOne ⟨false, delay, none⟩ s).execs = s.execs ++ [(ft, aprev)] := by
  unfold fireOne dueTimer
  rw [hT, hM]
  simp [trailingFire, invoke, hP]

theorem debounceSteps_trailing {A : Type} (delay : Nat) (rest : List (Nat × A)) :
    ∀ (s : DState A) (tprev : Nat) (aprev : A),
      s.timeout = some (tprev + delay) → s.maxTimeout = none →
      s.pendingArgs = some aprev →
      List.Chain' (fun p q => p.1 ≤ q.1 ∧ q.1 < p.1 + delay) ((tprev, aprev) :: rest) →
      (debounceSteps ⟨false, delay, none⟩ rest s).timeout
          = some ((((tprev, aprev) :: rest).getLast (List.cons_ne_nil _ _)).1 + delay) ∧
      (debounceSteps ⟨false, delay, none⟩ rest s).maxTimeout = none ∧
      (debounceSteps ⟨false, delay, none⟩ rest s).pendingArgs
          = some (((tprev, aprev) :: rest).getLast (List.cons_ne_nil _ _)).2 ∧
      (debounceSteps ⟨false, delay, none⟩ rest s).execs = s.execs := by
  induction rest with
  | nil =>
    intro s tprev aprev h1 h2 h3 _
    exact ⟨h1, h2, h3, rfl⟩
  | cons hd tl ih =>
    obtain ⟨t, a⟩ := hd
    intro s tprev aprev h1 h2 h3 hch
    obtain ⟨⟨hlt1, hlt2⟩, hch'⟩ := List.chain'_cons.mp hch
    have hres := ih
      { timeout := some (t + delay), maxTimeout := none,
        lastInvokeTime := s.lastInvokeTime,
        firstCallTime := if s.firstCallTime = 0 then t else s.firstCallTime,
        pendingArgs := some a, execs := s.execs } t a rfl rfl rfl hch'
    rw [debounceSteps, fireDue_not_due _ t (tprev + delay) s h1 h2 (by omega),
        debounceCall_trailing delay t a s h2, List.getLast_cons (List.cons_ne_nil _ _)]
    exact ⟨hres.1, hres.2.1, hres.2.2.1, hres.2.2.2⟩

/-- C1: with `immediate = false` and `maxWait` undefined, a chronological
sequence of calls in which each call follows the previous one by less than
`delay` ms produces exactly one execution of `fn`, at `delay` ms after the
last call, with the last call's arguments (earlier arguments are
overwritten, never queued). -/
theorem debounce_trailing_coalesce {A : Type} (delay : Nat) (calls : List (Nat × A))
    (hne : calls ≠ [])
    (hch : List.Chain' (fun p q => p.1 ≤ q.1 ∧ q.1 < p.1 + delay) calls) :
    (debounceRun ⟨false, delay, none⟩ calls).execs
      = [((calls.getLast hne).1 + delay, (calls.getLast hne).2)] := by
  obtain ⟨⟨t1, a1⟩, rest, rfl⟩ : ∃ p rest, calls = p :: rest := by
    cases calls with
    | nil => exact absurd rfl hne
    | cons p rest => exact ⟨p, rest, rfl⟩
  unfold debounceRun
  rw [debounceSteps]
  have h0 : fireDue ⟨false, delay, none⟩ t1 (initDState : DState A) = initDState := by
    simp [fireDue, dueTimer, initDState]
  rw [h0, debounceCall_trailing delay t1 a1 initDState rfl]
  obtain ⟨hT, hM, hP, hE⟩ :=
    debounceSteps_trailing delay rest
      { timeout := some (t1 + delay), maxTimeout := none,
        lastInvokeTime := (initDState : DState A).lastInvokeTime,
        firstCallTime := if (initDState : DState A).firstCallTime = 0 then t1
                         else (initDState : DState A).firstCallTime,
        pendingArgs := some a1, execs := (initDState : DState A).execs }
      t1 a1 rfl rfl rfl hch
  rw [fireOne_trailing_noMax delay _ _ _ hT hM hP, hE]
  simp [initDState]

/-- Witness for C1: three calls 2 ms and 6 ms apart with delay 10. -/
theorem debounce_trailing_coalesce_witness :
    ([(1, 5), (3, 6), (9, 7)] : List (Nat × Nat)) ≠ [] ∧
    List.Chain' (fun p q => p.1 ≤ q.1 ∧ q.1 < p.1 + 10)
      ([(1, 5), (3, 6), (9, 7)] : List (Nat × Nat)) ∧
    (debounceRun ⟨false, 10, none⟩ ([(1, 5), (3, 6), (9, 7)] : List (Nat × Nat))).execs
      = [(19, 7)] :=
  ⟨by decide, by simp [List.chain'_cons], by
    have h := debounce_trailing_coalesce 10 ([(1, 5), (3, 6), (9, 7)] : List (Nat × Nat))
      (by decide) (by simp [List.chain'_cons])
    simpa using h⟩

/-- C2 counterexample: with `immediate = true` the leading-edge invoke on the
first-ever call clears `firstCallTime` before `startMaxWaitTimer` reads it,
so with `maxWait = 10` a first call at t = 100 arms the max-wait timer for
t = 100 (clamped), not `100 + 10` as the claim states for every debounced
function with `maxWait` set. -/
theorem debounce_maxwait_counterexample :
    (debounceCall ⟨true, 5, some 10⟩ 100 (0 : Nat) initDState).maxTimeout = some 100 ∧
    (100 : Nat) + 10 ≠ 100 := by
  decide

/-- C2 (amended to `immediate = false`, the configuration the state manager
binding uses): the max-wait timer is armed on the first call of a burst for
exactly `firstCall + maxWait`, subsequent calls never re-arm or postpone it,
its callback cancels the trailing timer and executes the pending arguments,
and with delay 500 / maxWait 1000 and calls every 300 ms the execution
happens 1000 ms after the first call. -/
theorem debounce_maxwait_behavior (A : Type) :
    (∀ (cfg : DConfig) (mw t : Nat) (a : A) (s : DState A),
       cfg.maxWait = some mw → cfg.immediate = false →
       s.maxTimeout = none → s.firstCallTime = 0 →
       (debounceCall cfg t a s).maxTimeout = some (t + mw)) ∧
    (∀ (cfg : DConfig) (t : Nat) (a : A) (s : DState A) (m : Nat),
       s.maxTimeout = some m → (debounceCall cfg t a s).maxTimeout = some m) ∧
    (∀ (m : Nat) (s : DState A) (args : A),
       s.pendingArgs = some args →
       (maxFire m s).execs = s.execs ++ [(m, args)] ∧
       (maxFire m s).timeout = none ∧ (maxFire m s).maxTimeout = none) ∧
    (∀ (b1 b2 b3 b4 : A),
       (debounceRun ⟨false, 500, some 1000⟩
           [(1, b1), (301, b2), (601, b3), (901, b4)]).execs
         = [(1001, b4)]) := by
  refine ⟨?_, ?_, ?_, ?_⟩
  · intro cfg mw t a s hmw himm hmax hfct
    obtain ⟨imm, dl, omw⟩ := cfg
    simp at hmw himm
    subst hmw himm
    simp [debounceCall, startMaxWaitTimer, hmax, hfct]
  · intro cfg t a s m hm
    simp only [debounceCall, startMaxWaitTimer, invoke]
    split <;> split <;> simp_all
  · intro m s args hP
    simp [maxFire, invoke, hP]
  · intro b1 b2 b3 b4
    simp [debounceRun, debounceSteps, debounceCall, fireDue, fireOne, dueTimer,
          trailingFire, maxFire, invoke, startMaxWaitTimer, initDState]

/-- Witness for C2's amended theorem at concrete inputs. -/
theorem debounce_maxwait_behavior_witness :
    (debounceCall ⟨false, 500, some 1000⟩ 3 (0 : Nat) initDState).maxTimeout = some 1003 ∧
    (debounceCall ⟨false, 500, some 1000⟩ 6 (1 : Nat)
        (debounceCall ⟨false, 500, some 1000⟩ 3 (0 : Nat) initDState)).maxTimeout
      = some 1003 ∧
    (maxFire 1003 (debounceCall ⟨false, 500, some 1000⟩ 3 (0 : Nat) initDState)).execs
      = [(1003, 0)] := by
  refine ⟨?_, ?_, ?_⟩
  · exact (debounce_maxwait_behavior Nat).1 ⟨false, 500, some 1000⟩ 1000 3 0 initDState
      rfl rfl rfl rfl
  · exact (debounce_maxwait_behavior Nat).2.1 ⟨false, 500, some 1000⟩ 6 1 _ 1003 (by decide)
  · have h := (debounce_maxwait_behavior Nat).2.2.1 1003
      (debounceCall ⟨false, 500, some 1000⟩ 3 (0 : Nat) initDState) 0 (by decide)
    rw [h.1]
    decide

/-- C3 (evaluating the code at the failing input): with `immediate = true`,
`delay = 5` and no `maxWait`, calls at t = 1 and t = 100 (two bursts
separated by 99 ms of silence) produce exactly one execution — the leading
edge of the very first call.  The second burst's call never executes (its
arguments stay pending forever), because the leading-edge guard tests
`lastInvokeTime === 0`, which is false after any execution ever happened,
contradicting the claim (and the function's own documentation: "immediate
execution on first call in a burst"). -/
theorem debounce_immediate_once_only :
    (debounceRun ⟨true, 5, none⟩ [(1, (10 : Nat)), (100, 20)]).execs = [(1, 10)] ∧
    (debounceRun ⟨true, 5, none⟩ [(1, (10 : Nat)), (100, 20)]).pendingArgs = some 20 ∧
    (debounceRun ⟨true, 5, none⟩ [(1, (10 : Nat)), (100, 20)]).lastInvokeTime = 1 := by
  decide

/-- C8 counterexample: right after a leading-edge execution the wrapper arms
the trailing timer, so an execution has just happened (`execs = [(3, 7)]`,
`pendingArgs` cleared) yet a timer remains armed (`timeout = some 8`),
refuting "no timer remains armed" after every execution. -/
theorem debounce_reset_counterexample :
    (debounceCall ⟨true, 5, none⟩ 3 (7 : Nat) initDState).execs = [(3, 7)] ∧
    (debounceCall ⟨true, 5, none⟩ 3 (7 : Nat) initDState).timeout = some 8 := by
  decide

/-- C8 (amended): after a trailing-timer or max-wait execution the state is
fully reset — `pendingArgs` and `firstCallTime` cleared, `lastInvokeTime`
set to the execution time, both timers cleared; after a leading-edge
execution the same fields are reset but the call then arms the trailing
timer for `delay` ms later (no max-wait timer when `maxWait` is
undefined). -/
theorem debounce_reset_after_execution (A : Type) :
    (∀ (cfg : DConfig) (t : Nat) (s : DState A) (args : A),
       cfg.immediate = false → s.pendingArgs = some args →
       trailingFire cfg t s
         = { timeout := none, maxTimeout := none, lastInvokeTime := t,
             firstCallTime := 0, pendingArgs := none,
             execs := s.execs ++ [(t, args)] }) ∧
    (∀ (t : Nat) (s : DState A) (args : A),
       s.pendingArgs = some args →
       maxFire t s
         = { timeout := none, maxTimeout := none, lastInvokeTime := t,
             firstCallTime := 0, pendingArgs := none,
             execs := s.execs ++ [(t, args)] }) ∧
    (∀ (dl t : Nat) (a : A),
       debounceCall ⟨true, dl, none⟩ t a initDState
         = { timeout := some (t + dl), maxTimeout := none, lastInvokeTime := t,
             firstCallTime := 0, pendingArgs := none, execs := [(t, a)] }) := by
  refine ⟨?_, ?_, ?_⟩
  · intro cfg t s args himm hP
    simp [trailingFire, invoke, himm, hP]
  · intro t s args hP
    simp [maxFire, invoke, hP]
  · intro dl t a
    simp [debounceCall, invoke, startMaxWaitTimer, initDState]

/-- Witness for C8's amended theorem at concrete inputs. -/
theorem debounce_reset_after_execution_witness :
    trailingFire ⟨false, 5, none⟩ 9
        (debounceCall ⟨false, 5, none⟩ 4 (7 : Nat) initDState)
      = { timeout := none, maxTimeout := none, lastInvokeTime := 9,
          firstCallTime := 0, pendingArgs := none, execs := [(9, 7)] } ∧
    maxFire 6 (debounceCall ⟨false, 5, some 2⟩ 4 (8 : Nat) initDState)
      = { timeout := none, maxTimeout := none, lastInvokeTime := 6,
          firstCallTime := 0, pendingArgs := none, execs := [(6, 8)] } ∧
    debounceCall ⟨true, 5, none⟩ 3 (7 : Nat) initDState
      = { timeout := some 8, maxTimeout := none, lastInvokeTime := 3,
          firstCallTime := 0, pendingArgs := none, execs := [(3, 7)] } := by
  refine ⟨?_, ?_, ?_⟩
  · have h := (debounce_reset_after_execution Nat).1 ⟨false, 5, none⟩ 9
      (debounceCall ⟨false, 5, none⟩ 4 (7 : Nat) initDState) 7 rfl (by decide)
    rw [h]
    decide
  · have h := (debounce_reset_after_execution Nat).2.1 6
      (debounceCall ⟨false, 5, some 2⟩ 4 (8 : Nat) initDState) 8 (by decide)
    rw [h]
    decide
  · exact (debounce_reset_after_execution Nat).2.2 5 3 7

/-- The debounce options the `StateManager` constructor builds (utils.ts
lines 185–189 and 446–450) and hands to `#debounce`: `delay` and `maxWait`
default to 0 and `immediate` to false when the options object (or its
`immediate` field) is omitted.  Because the constructed record always
carries a `maxWait` number, `#debounce` never sees `maxWait === undefined`
on this path. -/
structure DebounceOptionsIn where
  delay : Nat
  maxWait : Nat
  immediate : Option Bool

/-- The `DConfig` a `StateManager` passes to `#debounce`. -/
def managerDebounceConfig (o : Option DebounceOptionsIn) : DConfig :=
  { immediate := ((o.bind (fun x => x.immediate)).getD false),
    delay := (o.map (fun x => x.delay)).getD 0,
    maxWait := some ((o.map (fun x => x.maxWait)).getD 0) }

/-- C10: `maxWait = 0` does not disable the max-wait mechanism (only
`undefined` does).  A manager built without debounce options gets
`maxWait = some 0`; no manager configuration ever yields `maxWait = none`;
with `maxWait = some 0` every burst-opening call arms a max-wait timer due
immediately (computed delay `maxWait - (now - firstCallTime) ≤ 0` clamps to
0), so a single call at time `t` executes at time `t` on the next tick,
regardless of the configured `delay`. -/
theorem maxwait_zero_enabled :
    managerDebounceConfig none
      = { immediate := false, delay := 0, maxWait := some 0 } ∧
    (∀ o, (managerDebounceConfig o).maxWait ≠ none) ∧
    (∀ (cfg : DConfig) (t : Nat) (a : Nat) (s : DState Nat),
       cfg.maxWait = some 0 → s.maxTimeout = none → s.firstCallTime ≤ t →
       (debounceCall cfg t a s).maxTimeout = some t) ∧
    (∀ (dl t : Nat) (a : Nat),
       (debounceRun ⟨false, dl, some 0⟩ [(t, a)]).execs = [(t, a)]) := by
  refine ⟨rfl, ?_, ?_, ?_⟩
  · intro o
    simp [managerDebounceConfig]
  · intro cfg t a s hmw hmax hf
    obtain ⟨imm, dl, omw⟩ := cfg
    simp at hmw
    subst hmw
    simp only [debounceCall, startMaxWaitTimer, invoke]
    split <;> split <;> simp_all
  · intro dl t a
    simp [debounceRun, debounceSteps, debounceCall, fireDue, fireOne, dueTimer,
          trailingFire, maxFire, invoke, startMaxWaitTimer, initDState]

/-- Witness for C10 at concrete inputs. -/
theorem maxwait_zero_enabled_witness :
    (debounceCall ⟨false, 500, some 0⟩ 7 (3 : Nat) initDState).maxTimeout = some 7 ∧
    (debounceRun ⟨false, 500, some 0⟩ [(7, (3 : Nat))]).execs = [(7, 3)] := by
  constructor
  · exact maxwait_zero_enabled.2.2.1 ⟨false, 500, some 0⟩ 7 3 initDState rfl rfl
      (by decide)
  · exact maxwait_zero_enabled.2.2.2 500 7 3

/-- JS property write `target[key] = v`: updates the first binding in place
(insertion order preserved) or appends a new one. -/
def setKey : List (String × JVal) → String → JVal → List (String × JVal)
  | [], k, v => [(k, v)]
  | (k', v') :: rest, k, v =>
    if k' = k then (k', v) :: rest else (k', v') :: setKey rest k v

/-- `Object.assign(target, source)`: assign every own property of `source`
onto `target`, in order. -/
def objAssign (target source : List (String × JVal)) : List (String × JVal) :=
  source.foldl (fun acc kv => setKey acc kv.1 kv.2) target

/-- `structuredClone`: on a pure value model a deep clone is the value
itself (cloning only matters for reference sharing, which the model has
none of). -/
def structuredCloneV (v : List (String × JVal)) : List (String × JVal) := v

/-- `StateManager.load` (utils.ts lines 232–248): await the load callback;
on success `Object.assign` a deep clone of the result onto `state`; on
failure log (`console.error`, modelled as the returned message list) and
re-throw the same error.  Result: (new state, log, outcome). -/
def stateManagerLoad (E : Type) (loadResult : Except E (List (String × JVal)))
    (state : List (String × JVal)) :
    List (String × JVal) × List String × Except E Unit :=
  match loadResult with
  | .ok dat => (objAssign state (structuredCloneV dat), [], .ok ())
  | .error e =>
    (state, ["StateManager: Failed to load state from storage:"], .error e)

/-- The second `StateManager.load` variant (utils.ts lines 489–501): its
catch block re-throws without logging (the call site logs instead). -/
def stateManagerLoadV2 (E : Type) (loadResult : Except E (List (String × JVal)))
    (state : List (String × JVal)) :
    List (String × JVal) × List String × Except E Unit :=
  match loadResult with
  | .ok dat => (objAssign state (structuredCloneV dat), [], .ok ())
  | .error e => (state, [], .error e)

/-- C5: when the load callback fails with error `e`, `load()` re-throws that
same `e` to its caller and leaves the state object exactly as it was (no
field assigned); the first variant logs one message before re-throwing, the
second re-throws without logging (its call site logs).  On success the
`Object.assign` merge is the only path that touches state. -/
theorem stateManager_load_error (E : Type) :
    (∀ (e : E) (st : List (String × JVal)),
       stateManagerLoad E (.error e) st
         = (st, ["StateManager: Failed to load state from storage:"], .error e)) ∧
    (∀ (e : E) (st : List (String × JVal)),
       stateManagerLoadV2 E (.error e) st = (st, [], .error e)) ∧
    (∀ (dat st : List (String × JVal)),
       stateManagerLoad E (.ok dat) st = (objAssign st dat, [], .ok ()) ∧
       stateManagerLoadV2 E (.ok dat) st = (objAssign st dat, [], .ok ())) :=
  ⟨fun _ _ => rfl, fun _ _ => rfl, fun _ _ => ⟨rfl, rfl⟩⟩

/-- The body of the debounced save closure in the `StateManager`
constructor, first variant (utils.ts lines 193–209): snapshot, clone, await
the save callback; on failure log and re-throw into the (discarded) async
result.  Result: (log, async outcome). -/
def debouncedSaveBodyV1 (E : Type) (saveResult : Except E Unit) :
    List String × Except E Unit :=
  match saveResult with
  | .ok _ => ([], .ok ())
  | .error e => (["StateManager: Failed to save state to storage:"], .error e)

/-- `StateManager.save` (utils.ts lines 270–277): call the debounced wrapper
if one was built (i.e. a save callback was configured).  The wrapper is the
synchronous `debounceCall` and returns void — calling an async `fn` never
throws synchronously — so the promise `save` returns always resolves. -/
def stateManagerSave (E : Type) (hasSaveCallback : Bool) (cfg : DConfig)
    (now : Nat) (st : DState Unit) : DState Unit × Except E Unit :=
  if hasSaveCallback then (debounceCall cfg now () st, Except.ok ())
  else (st, Except.ok ())

/-- C6: `save()` is a no-op when no save callback was configured; whatever
the configuration, the promise it returns resolves (its outcome component
is `ok`, never the save callback's error); and an error from the save
callback inside the debounced path is logged there and lives only in the
discarded async outcome — it never reaches `save()`'s caller. -/
theorem stateManager_save_fire_and_forget (E : Type) :
    (∀ (cfg : DConfig) (now : Nat) (st : DState Unit),
       stateManagerSave E false cfg now st = (st, Except.ok ())) ∧
    (∀ (hasCb : Bool) (cfg : DConfig) (now : Nat) (st : DState Unit),
       (stateManagerSave E hasCb cfg now st).2 = Except.ok ()) ∧
    (∀ e : E, debouncedSaveBodyV1 E (Except.error e)
       = (["StateManager: Failed to save state to storage:"], Except.error e)) := by
  refine ⟨fun _ _ _ => rfl, ?_, fun _ => rfl⟩
  intro hasCb cfg now st
  cases hasCb <;> rfl

/-- The module-level flags of the storage binding
(state.svelte.ts lines 5–6), plus a count of `stateManager.save()` calls the
auto-save effect has made. -/
structure BindingState where
  storageLoaded : Bool
  saveCalls : Nat
deriving Repr, DecidableEq

/-- Binding state at module import. -/
def initialBindingState : BindingState := { storageLoaded := false, saveCalls := 0 }

/-- One run of the `$effect` registered by `initialiseStorageAutoSave`
(state.svelte.ts lines 40–47): after the deep read, return early unless
`storageLoaded`, else call `stateManager.save()`. -/
def autoSaveEffect (b : BindingState) : BindingState :=
  if b.storageLoaded then { b with saveCalls := b.saveCalls + 1 } else b

/-- The module-init IIFE (state.svelte.ts lines 18–30): await `load()`; on
success set `storageLoaded := true` (then re-persist the cleaned state); on
failure log and leave the flag untouched. -/
def moduleInit (E S : Type) (loadResult : Except E S) (b : BindingState) :
    BindingState :=
  match loadResult with
  | .ok _ => { b with storageLoaded := true }
  | .error _ => b

/-- C9: before the initial `load()` resolves the guard is false, any number
of auto-save effect runs leave the save count at zero (the effect returns
before calling `save()` whenever the guard is false), and the guard becomes
true only when `moduleInit` sees a successful load — a failed load leaves it
false. -/
theorem autosave_guard (E S : Type) :
    (∀ n : Nat, (autoSaveEffect^[n] initialBindingState).saveCalls = 0 ∧
                (autoSaveEffect^[n] initialBindingState).storageLoaded = false) ∧
    (∀ b : BindingState, b.storageLoaded = false → autoSaveEffect b = b) ∧
    (∀ e : E, moduleInit E S (Except.error e) initialBindingState
        = initialBindingState) ∧
    (∀ d : S, (moduleInit E S (Except.ok d) initialBindingState).storageLoaded
        = true) := by
  have hguard : ∀ b : BindingState, b.storageLoaded = false → autoSaveEffect b = b := by
    intro b hb
    simp [autoSaveEffect, hb]
  refine ⟨?_, hguard, fun _ => rfl, fun _ => rfl⟩
  intro n
  induction n with
  | zero => exact ⟨rfl, rfl⟩
  | succ n ih =>
    rw [Function.iterate_succ_apply', hguard _ ih.2]
    exact ih

/-- Witness for C9 (the guarded-effect conjunct at the initial state). -/
theorem autosave_guard_witness :
    autoSaveEffect initialBindingState = initialBindingState :=
  (autosave_guard Unit Unit).2.1 initialBindingState rfl
